import Mathlib

/-!
Verification development for the `buzz` range cache of `parquet2json`
(`src/buzz/range_cache.rs`, `src/buzz/cached_file.rs`).

The Rust code is shallowly embedded: byte vectors (`Vec<u8>`) become
`List Nat`, the per-file `BTreeMap<u64, Download>` becomes a key-sorted
association list, the outer `HashMap<(DownloaderId, FileId), FileData>`
becomes an association list keyed by `String × String`, and `u64`/`usize`
become `Nat` (both subtractions performed by the source are guarded by
inequalities that we carry explicitly, so `Nat` truncated subtraction
coincides with the machine subtraction).

The blocking machinery is embedded as follows: the worker thread spawned by
`RangeCache::get` becomes the pure function `getWorker`, computing both the
outcome of that thread (what it sends on the oneshot channel, or that it
returns early without sending, panics, or waits) and its side effect on the
cache map; `CachedRead::read`'s first-call polling loop becomes
`CachedRead.firstRead` over the channel content.
-/

namespace RangeCache

/-- The status and content of a download, from `enum Download`
(`range_cache.rs` lines 69-73). `Done` holds `Mutex<Option<Vec<u8>>>`:
the inner option becomes `none` once a reader has taken the bytes. -/
inductive Download where
  | Pending : Download
  | Done : Option (List Nat) → Download
  | Error : String → Download
deriving DecidableEq, Repr

/-- `true` exactly on the terminal states `Done`/`Error`. -/
def Download.isTerminal : Download → Bool
  | .Pending => false
  | .Done _ => true
  | .Error _ => true

/-- `type FileData = BTreeMap<u64, Download>`: modelled as an association
list sorted by strictly increasing key. -/
abbrev FileData := List (Nat × Download)

/-- Cache key `(DownloaderId, FileId)` (`range_cache.rs` line 84). -/
abbrev CacheKey := String × String

/-- `type CacheData = HashMap<CacheKey, FileData>` as an association list. -/
abbrev CacheData := List (CacheKey × FileData)

/-- `type DownloadRequest = (DownloaderId, FileId, u64, usize)`. -/
abbrev DownloadRequest := String × String × Nat × Nat

/-- `HashMap` lookup for the outer cache map. -/
def mapLookup (m : CacheData) (k : CacheKey) : Option FileData :=
  match m with
  | [] => none
  | (k', v) :: rest => if k = k' then some v else mapLookup rest k

/-- `HashMap` insert-or-replace for the outer cache map. -/
def mapInsert (m : CacheData) (k : CacheKey) (v : FileData) : CacheData :=
  match m with
  | [] => [(k, v)]
  | (k', v') :: rest =>
      if k = k' then (k, v) :: rest else (k', v') :: mapInsert rest k v

/-- `BTreeMap::insert`: insert-or-replace keeping keys sorted. -/
def btreeInsert (m : FileData) (k : Nat) (v : Download) : FileData :=
  match m with
  | [] => [(k, v)]
  | (k', v') :: rest =>
      if k < k' then (k, v) :: (k', v') :: rest
      else if k = k' then (k, v) :: rest
      else (k', v') :: btreeInsert rest k v

/-- `BTreeMap::get` by exact key. -/
def btreeLookup (m : FileData) (k : Nat) : Option Download :=
  match m with
  | [] => none
  | (k', v) :: rest => if k = k' then some v else btreeLookup rest k

/-- `file_map.range((Unbounded, Included(start))).next_back()`
(`range_cache.rs` line 224): the entry with the greatest key `≤ start`.
On a key-sorted list this is the last entry whose key is `≤ start`. -/
def floorLookup (m : FileData) (start : Nat) : Option (Nat × Download) :=
  match m with
  | [] => none
  | (k, v) :: rest =>
      if k ≤ start then
        match floorLookup rest start with
        | some r => some r
        | none => some (k, v)
      else none

/-- Keys strictly increase along the list (the `BTreeMap` ordering
invariant). -/
def KeysSorted : FileData → Prop
  | [] => True
  | [_] => True
  | a :: b :: rest => a.1 < b.1 ∧ KeysSorted (b :: rest)

/-- `struct CachedReadData` (`range_cache.rs` lines 14-18): a reader over a
downloaded byte buffer with a cursor and a remaining-byte budget. -/
structure CachedReadData where
  data : List Nat
  position : Nat
  remaining : Nat
deriving DecidableEq, Repr

/-- The Rust slice expression `data[lo..hi]`, with its bounds check: Rust
panics when `lo > hi` or `hi > data.len()`, which we surface as `.error`. -/
def sliceRange (data : List Nat) (lo hi : Nat) : Except String (List Nat) :=
  if lo ≤ hi ∧ hi ≤ data.length then .ok ((data.drop lo).take (hi - lo))
  else .error "slice index out of range"

/-- `<CachedReadData as Read>::read` (`range_cache.rs` lines 20-34):
`len = min(buf.len(), remaining)`, copy `data[position..position+len]` into
`buf[0..len]`, advance `position`, decrease `remaining`, return `Ok(len)`.
The result carries the count returned, the bytes copied into the caller's
buffer, and the updated reader; `.error` marks the panics Rust could hit
(slice out of bounds, `u64` subtraction underflow). -/
def CachedReadData.read (r : CachedReadData) (bufLen : Nat) :
    Except String (Nat × List Nat × CachedReadData) :=
  match sliceRange r.data r.position (r.position + min bufLen r.remaining) with
  | .error e => .error e
  | .ok copied =>
      if min bufLen r.remaining ≤ r.remaining then
        .ok (min bufLen r.remaining, copied,
          ⟨r.data, r.position + min bufLen r.remaining,
            r.remaining - min bufLen r.remaining⟩)
      else .error "attempt to subtract with overflow"

/-- Fuel-indexed read-to-exhaustion: call `read` with a `bufLen`-byte buffer
until it returns `0`, concatenating the bytes copied on each call. -/
def readAllFuel : Nat → CachedReadData → Nat → Except String (List Nat)
  | 0, _, _ => .error "out of fuel"
  | fuel + 1, r, bufLen =>
      if bufLen = 0 ∨ r.remaining = 0 then .ok []
      else
        match r.read bufLen with
        | .error e => .error e
        | .ok (_, copied, r1) =>
            match readAllFuel fuel r1 bufLen with
            | .error e => .error e
            | .ok rest => .ok (copied ++ rest)

/-- Read the reader to exhaustion with buffers of `bufLen` bytes.
`r.remaining + 1` steps always suffice when `bufLen > 0`, since each
non-final call consumes at least one byte. -/
def readAll (r : CachedReadData) (bufLen : Nat) : Except String (List Nat) :=
  readAllFuel (r.remaining + 1) r bufLen

/-- Outcome of the worker thread spawned by `RangeCache::get`
(`range_cache.rs` lines 215-265), seen from the oneshot channel:

* `sent r` — the thread reached `tx.send(result)` with value `r`;
* `dropped msg` — the thread returned early through `?` / `ensure!`
  carrying the error `msg`, so the sender is dropped without sending and
  the channel closes empty;
* `panicked` — the thread hit `unreachable!()` or `unwrap()` on `None`;
* `blocked` — the floor chunk is still `Pending`, so the thread is inside
  the condition-variable wait loop. -/
inductive GetOutcome where
  | sent : Except String CachedReadData → GetOutcome
  | dropped : String → GetOutcome
  | panicked : GetOutcome
  | blocked : GetOutcome
deriving Repr

/-- Modelled from the spec: the `ensure!` macro of the repository's
`buzz/error` module, which is not under `src/`. Per §7 an `Overflow` is an
ordinary recoverable error returned to the consumer, so `ensure!` checks
its condition and, on failure, aborts the enclosing function with an
internal error carrying the formatted message (an early `return Err`,
matching its statement position before `tx.send`). -/
def ensureOk (cond : Bool) (msg : String) : Except String Unit :=
  if cond then .ok () else .error msg

/-- The worker thread spawned by `RangeCache::get` (`range_cache.rs` lines
215-265), evaluated against a fixed cache state: look the file up in the
cache map (`?`-failing with the `internal_err!` message when absent),
perform the floor lookup, wait while the floor entry is `Pending`
(`blocked` here), `?`-fail when there is no floor entry, and on a terminal
entry: `Done` takes the bytes out of the entry's `Mutex<Option<_>>`
(leaving `None` behind — the state component records this), `unwrap`-panics
if they were already taken, `ensure!`-checks
`bytes.len() >= unused_start + length`, and sends the `CachedReadData`;
the `Error` arm is `unreachable!()`, a panic. Returns the outcome paired
with the updated cache map. -/
def getWorker (data : CacheData) (did fid : String) (start length : Nat) :
    GetOutcome × CacheData :=
  match mapLookup data (did, fid) with
  | none =>
      (.dropped ("No download scheduled for file: (donwloader=" ++ did ++
        ",file_id=" ++ fid ++ ")"), data)
  | some fileMap =>
      match floorLookup fileMap start with
      | some (_, .Pending) => (.blocked, data)
      | none =>
          (.dropped ("Download not scheduled: (start=" ++ toString start ++
            ",length=" ++ toString length ++ ")"), data)
      | some (_, .Error _) => (.panicked, data)
      | some (_, .Done none) => (.panicked, data)
      | some (k, .Done (some bytes)) =>
          let taken := mapInsert data (did, fid)
            (btreeInsert fileMap k (.Done none))
          let unused := start - k
          match ensureOk (decide (unused + length ≤ bytes.length))
              ("Download not scheduled (overflow right): (start=" ++
                toString start ++ ",length=" ++ toString length ++ ")") with
          | .ok _ => (.sent (.ok ⟨bytes, unused, length⟩), taken)
          | .error msg => (.dropped msg, taken)

/-- What, if anything, the worker delivers on the oneshot channel: only a
`sent` outcome places a value there; on `dropped`/`panicked` the sender is
destroyed without sending, on `blocked` it is still pending. -/
def GetOutcome.channelContent : GetOutcome → Option (Except String CachedReadData)
  | .sent r => some r
  | .dropped _ => none
  | .panicked => none
  | .blocked => none

/-- Behaviour of the first `CachedRead::read` call (`range_cache.rs` lines
41-66) as a function of what the worker put on the oneshot channel: with no
value ever arriving the `loop` retries `try_recv` forever (`Err(_) =>
continue`), i.e. the call hangs; a received `Err` download result hits
`download_result.unwrap()` and panics; a received `Ok` delegates to
`CachedReadData::read`. -/
inductive FirstReadOutcome where
  | delegated : Except String (Nat × List Nat × CachedReadData) → FirstReadOutcome
  | hangs : FirstReadOutcome
  | panicked : FirstReadOutcome
deriving Repr

/-- See `FirstReadOutcome`. -/
def CachedRead.firstRead (chan : Option (Except String CachedReadData))
    (bufLen : Nat) : FirstReadOutcome :=
  match chan with
  | none => .hangs
  | some (.error _) => .panicked
  | some (.ok r) => .delegated (r.read bufLen)

/-- The chunk-map effect of `RangeCache::schedule` (`range_cache.rs` lines
182-197): insert `Pending` at `start` in the file's map (creating the map
if absent). -/
def scheduleData (data : CacheData) (did fid : String) (start : Nat) : CacheData :=
  mapInsert data (did, fid)
    (btreeInsert ((mapLookup data (did, fid)).getD []) start .Pending)

/-- Cache state: the chunk maps plus the unbounded request queue fed by
`schedule` through `tx`. -/
structure CacheState where
  data : CacheData
  queue : List DownloadRequest

/-- The state right after `RangeCache::new`: empty maps, empty queue. -/
def emptyCache : CacheState := ⟨[], []⟩

/-- `RangeCache::schedule`: the map effect plus enqueueing the request. -/
def schedule (s : CacheState) (did fid : String) (start length : Nat) : CacheState :=
  ⟨scheduleData s.data did fid start, s.queue ++ [(did, fid, start, length)]⟩

/-- The completion write performed by the dispatcher's download task
(`range_cache.rs` lines 148-163): insert `Done(bytes)` on success or
`Error(reason)` on failure at the request's offset. -/
def completeDownload (data : CacheData) (did fid : String) (start : Nat)
    (res : Except String (List Nat)) : CacheData :=
  let v : Download := match res with
    | .ok bytes => .Done (some bytes)
    | .error reason => .Error reason
  mapInsert data (did, fid)
    (btreeInsert ((mapLookup data (did, fid)).getD []) start v)

/-- Registry lookup, `HashMap::get` on the downloader map. -/
def registryLookup {D : Type} (m : List (String × D)) (id : String) : Option D :=
  match m with
  | [] => none
  | (id', d) :: rest => if id = id' then some d else registryLookup rest id

/-- `RangeCache::register_downloader` (`range_cache.rs` lines 170-179):
invoke `downloader_creator` and insert the result only when no downloader
is registered under `downloader_id`. The returned `Bool` records whether
the creator was invoked (line 177 executed). -/
def register_downloader {D : Type} (m : List (String × D)) (id : String)
    (creator : Unit → D) : List (String × D) × Bool :=
  match registryLookup m id with
  | some _ => (m, false)
  | none => (m ++ [(id, creator ())], true)

/-- The three kinds of events that mutate a file's chunk-map state:
`schedule`, a dispatcher completion, and a `get` worker run (whose `take`
empties a `Done` entry). -/
inductive CacheOp where
  | scheduleOp : String → String → Nat → Nat → CacheOp
  | completeOp : String → String → Nat → Except String (List Nat) → CacheOp
  | getOp : String → String → Nat → Nat → CacheOp

/-- Apply one operation's chunk-map effect. -/
def applyOp (data : CacheData) : CacheOp → CacheData
  | .scheduleOp did fid start _ => scheduleData data did fid start
  | .completeOp did fid start res => completeDownload data did fid start res
  | .getOp did fid start length => (getWorker data did fid start length).2

/-- Apply a sequence of operations in order. -/
def applyOps (data : CacheData) (ops : List CacheOp) : CacheData :=
  ops.foldl applyOp data

/-- The chunk-map entry at an exact offset for a (source, file) pair. -/
def entryAt (data : CacheData) (did fid : String) (start : Nat) : Option Download :=
  match mapLookup data (did, fid) with
  | none => none
  | some fm => btreeLookup fm start

/-- The dispatcher's permit accounting (`range_cache.rs` lines 120-146):
`permits` counts the semaphore's available permits, `inflight` the spawned
download tasks that have not yet called `add_permits(1)`. -/
structure DispatcherState where
  permits : Nat
  inflight : Nat
deriving DecidableEq, Repr

/-- Dispatcher events: `startFetch` is the loop acquiring a permit
(`pool.acquire()` + `permit.forget()`) and spawning a download task;
`finishFetch` is a download task completing its fetch and returning its
permit (`pool_ref.add_permits(1)`). -/
inductive DispatcherEvent where
  | startFetch : DispatcherEvent
  | finishFetch : DispatcherEvent
deriving DecidableEq, Repr

/-- One dispatcher transition. `acquire().await` blocks while no permit is
available, so `startFetch` is only enabled (`some`) when `0 < permits`;
`finishFetch` needs a running task. -/
def dispatcherStep (s : DispatcherState) : DispatcherEvent → Option DispatcherState
  | .startFetch =>
      if 0 < s.permits then some ⟨s.permits - 1, s.inflight + 1⟩ else none
  | .finishFetch =>
      if 0 < s.inflight then some ⟨s.permits + 1, s.inflight - 1⟩ else none

/-- Run a dispatcher event trace from a given state; `none` when some event
was not enabled. -/
def runDispatcherFrom (s : DispatcherState) :
    List DispatcherEvent → Option DispatcherState
  | [] => some s
  | e :: es =>
      match dispatcherStep s e with
      | some s' => runDispatcherFrom s' es
      | none => none

/-- Run a dispatcher event trace from the state after
`Semaphore::new(concurrent_downloads)`: `N` permits, nothing in flight. -/
def runDispatcher (N : Nat) (events : List DispatcherEvent) : Option DispatcherState :=
  runDispatcherFrom ⟨N, 0⟩ events

/-! ### Helper lemmas about the map embeddings -/

theorem mapLookup_insert_self (m : CacheData) (k : CacheKey) (v : FileData) :
    mapLookup (mapInsert m k v) k = some v := by
  induction m with
  | nil => simp [mapInsert, mapLookup]
  | cons hd tl ih =>
      by_cases h : k = hd.1
      · simp [mapInsert, mapLookup, h]
      · simp [mapInsert, mapLookup, h, ih]

theorem mapLookup_insert_ne (m : CacheData) (k k' : CacheKey) (v : FileData)
    (h : k ≠ k') : mapLookup (mapInsert m k' v) k = mapLookup m k := by
  induction m with
  | nil => simp [mapInsert, mapLookup, h]
  | cons hd tl ih =>
      by_cases h1 : k' = hd.1
      · subst h1
        simp [mapInsert, mapLookup, h]
      · by_cases h2 : k = hd.1 <;> simp [mapInsert, mapLookup, h1, h2, ih]

theorem btreeLookup_insert_self (m : FileData) (k : Nat) (v : Download) :
    btreeLookup (btreeInsert m k v) k = some v := by
  induction m with
  | nil => simp [btreeInsert, btreeLookup]
  | cons hd tl ih =>
      rcases Nat.lt_trichotomy k hd.1 with h | h | h
      · simp [btreeInsert, btreeLookup, h]
      · simp [btreeInsert, btreeLookup, h, Nat.lt_irrefl]
      · have h1 : ¬ k < hd.1 := Nat.not_lt.mpr (Nat.le_of_lt h)
        have h2 : k ≠ hd.1 := Nat.ne_of_gt h
        simp [btreeInsert, btreeLookup, h1, h2, ih]

theorem btreeLookup_insert_ne (m : FileData) (k k' : Nat) (v : Download)
    (h : k ≠ k') : btreeLookup (btreeInsert m k' v) k = btreeLookup m k := by
  induction m with
  | nil => simp [btreeInsert, btreeLookup, h]
  | cons hd tl ih =>
      rcases Nat.lt_trichotomy k' hd.1 with h1 | h1 | h1
      · have h2 : k ≠ hd.1 ∨ k = hd.1 := (ne_or_eq k hd.1)
        simp [btreeInsert, btreeLookup, h1, h]
      · subst h1
        simp [btreeInsert, btreeLookup, Nat.lt_irrefl, h]
      · have h2 : ¬ k' < hd.1 := Nat.not_lt.mpr (Nat.le_of_lt h1)
        have h3 : k' ≠ hd.1 := Nat.ne_of_gt h1
        simp [btreeInsert, btreeLookup, h2, h3, ih]

theorem keysSorted_tail {a : Nat × Download} {l : FileData}
    (h : KeysSorted (a :: l)) : KeysSorted l := by
  cases l with
  | nil => trivial
  | cons b rest => exact h.2

theorem keysSorted_head_lt {a : Nat × Download} {l : FileData}
    (h : KeysSorted (a :: l)) : ∀ p ∈ l, a.1 < p.1 := by
  induction l generalizing a with
  | nil => intro p hp; cases hp
  | cons b rest ih =>
      intro p hp
      cases hp with
      | head => exact h.1
      | tail _ hmem => exact Nat.lt_trans h.1 (ih h.2 p hmem)

/-! ### Helper lemmas about the floor lookup -/

theorem floorLookup_le {m : FileData} {start k : Nat} {d : Download}
    (h : floorLookup m start = some (k, d)) : k ≤ start := by
  induction m with
  | nil => simp [floorLookup] at h
  | cons hd tl ih =>
      unfold floorLookup at h
      by_cases h1 : hd.1 ≤ start
      · rw [if_pos h1] at h
        cases h2 : floorLookup tl start with
        | none =>
            rw [h2] at h
            simp at h
            have hk : hd.1 = k := by rw [h]
            omega
        | some r =>
            rw [h2] at h
            simp at h
            subst h
            exact ih h2
      · rw [if_neg h1] at h
        simp at h

theorem floorLookup_mem {m : FileData} {start k : Nat} {d : Download}
    (h : floorLookup m start = some (k, d)) : (k, d) ∈ m := by
  induction m with
  | nil => simp [floorLookup] at h
  | cons hd tl ih =>
      unfold floorLookup at h
      by_cases h1 : hd.1 ≤ start
      · rw [if_pos h1] at h
        cases h2 : floorLookup tl start with
        | none =>
            rw [h2] at h
            simp at h
            rw [← h]
            exact List.mem_cons_self hd tl
        | some r =>
            rw [h2] at h
            simp at h
            subst h
            exact List.mem_cons_of_mem hd (ih h2)
      · rw [if_neg h1] at h
        simp at h

theorem floorLookup_none {m : FileData} {start : Nat}
    (hs : KeysSorted m) (h : floorLookup m start = none) :
    ∀ p ∈ m, start < p.1 := by
  cases m with
  | nil => intro p hp; cases hp
  | cons hd tl =>
      unfold floorLookup at h
      by_cases h1 : hd.1 ≤ start
      · rw [if_pos h1] at h
        cases h2 : floorLookup tl start with
        | none => rw [h2] at h; simp at h
        | some r => rw [h2] at h; simp at h
      · intro p hp
        cases hp with
        | head => exact Nat.lt_of_not_le h1
        | tail _ hmem =>
            exact Nat.lt_trans (Nat.lt_of_not_le h1) (keysSorted_head_lt hs p hmem)

theorem floorLookup_greatest {m : FileData} {start k : Nat} {d : Download}
    (hs : KeysSorted m) (h : floorLookup m start = some (k, d)) :
    ∀ p ∈ m, p.1 ≤ start → p.1 ≤ k := by
  induction m with
  | nil => intro p hp; cases hp
  | cons hd tl ih =>
      unfold floorLookup at h
      by_cases h1 : hd.1 ≤ start
      · rw [if_pos h1] at h
        intro p hp hple
        cases h2 : floorLookup tl start with
        | none =>
            rw [h2] at h
            simp at h
            have hk : hd.1 = k := by rw [h]
            cases hp with
            | head => omega
            | tail _ hmem =>
                exact absurd hple
                  (Nat.not_le.mpr (floorLookup_none (keysSorted_tail hs) h2 p hmem))
        | some r =>
            rw [h2] at h
            simp at h
            subst h
            cases hp with
            | head =>
                exact Nat.le_of_lt (keysSorted_head_lt hs _ (floorLookup_mem h2))
            | tail _ hmem => exact ih (keysSorted_tail hs) h2 p hmem hple
      · rw [if_neg h1] at h
        simp at h

theorem floorLookup_insert_found {m : FileData} {start k : Nat} {d : Download}
    (hs : KeysSorted m) (h : floorLookup m start = some (k, d)) (v : Download) :
    floorLookup (btreeInsert m k v) start = some (k, v) := by
  induction m with
  | nil => simp [floorLookup] at h
  | cons hd tl ih =>
      unfold floorLookup at h
      by_cases h1 : hd.1 ≤ start
      · rw [if_pos h1] at h
        cases h2 : floorLookup tl start with
        | none =>
            rw [h2] at h
            simp at h
            have hk : hd.1 = k := by rw [h]
            have hn1 : ¬ k < hd.1 := by omega
            unfold btreeInsert
            rw [if_neg hn1, if_pos hk.symm]
            unfold floorLookup
            rw [if_pos (show (k, v).1 ≤ start by omega), h2]
        | some r =>
            rw [h2] at h
            simp at h
            subst h
            have hgt : hd.1 < k := keysSorted_head_lt hs _ (floorLookup_mem h2)
            have hn1 : ¬ k < hd.1 := by omega
            have hn2 : ¬ k = hd.1 := by omega
            unfold btreeInsert
            rw [if_neg hn1, if_neg hn2]
            unfold floorLookup
            rw [if_pos h1, ih (keysSorted_tail hs) h2]
      · rw [if_neg h1] at h
        simp at h

/-! ### Helper lemmas about the reader -/

theorem read_eq (r : CachedReadData) (bufLen : Nat)
    (h : r.position + r.remaining ≤ r.data.length) :
    r.read bufLen = .ok (min bufLen r.remaining,
      (r.data.drop r.position).take (min bufLen r.remaining),
      ⟨r.data, r.position + min bufLen r.remaining,
        r.remaining - min bufLen r.remaining⟩) := by
  have hmin : min bufLen r.remaining ≤ r.remaining := Nat.min_le_right _ _
  have hhi : r.position + min bufLen r.remaining ≤ r.data.length := by omega
  have h1 : r.position ≤ r.position + min bufLen r.remaining := Nat.le_add_right _ _
  unfold CachedReadData.read sliceRange
  rw [if_pos ⟨h1, hhi⟩]
  simp [hmin, Nat.add_sub_cancel_left]

theorem readAllFuel_eq (fuel : Nat) : ∀ (r : CachedReadData) (bufLen : Nat),
    r.remaining < fuel → 0 < bufLen →
    r.position + r.remaining ≤ r.data.length →
    readAllFuel fuel r bufLen = .ok ((r.data.drop r.position).take r.remaining) := by
  induction fuel with
  | zero => intro r bufLen h _ _; omega
  | succ n ih =>
      intro r bufLen hfuel hbuf hinv
      unfold readAllFuel
      by_cases hrem : r.remaining = 0
      · rw [if_pos (Or.inr hrem)]
        simp [hrem]
      · rw [if_neg (by omega)]
        rw [read_eq r bufLen hinv]
        have hlen1 : 1 ≤ min bufLen r.remaining := by omega
        have hlen2 : min bufLen r.remaining ≤ r.remaining := Nat.min_le_right _ _
        have hret := ih ⟨r.data, r.position + min bufLen r.remaining,
          r.remaining - min bufLen r.remaining⟩ bufLen (by simp; omega) hbuf
          (by simp; omega)
        simp only [hret]
        congr 1
        have hdrop : r.data.drop (r.position + min bufLen r.remaining) =
            (r.data.drop r.position).drop (min bufLen r.remaining) := by
          rw [List.drop_drop]
        rw [hdrop, ← List.take_add]
        congr 1
        omega

theorem readAll_eq (r : CachedReadData) (bufLen : Nat) (hbuf : 0 < bufLen)
    (hinv : r.position + r.remaining ≤ r.data.length) :
    readAll r bufLen = .ok ((r.data.drop r.position).take r.remaining) :=
  readAllFuel_eq (r.remaining + 1) r bufLen (Nat.lt_succ_self _) hbuf hinv

/-! ### Helper lemmas about the get worker and the registry -/

theorem getWorker_snd (data : CacheData) (did fid : String) (start length : Nat) :
    (getWorker data did fid start length).2 = data ∨
    ∃ fm k bytes, mapLookup data (did, fid) = some fm ∧
      floorLookup fm start = some (k, Download.Done (some bytes)) ∧
      (getWorker data did fid start length).2 =
        mapInsert data (did, fid) (btreeInsert fm k (.Done none)) := by
  cases hm : mapLookup data (did, fid) with
  | none => left; simp [getWorker, hm]
  | some fm =>
      cases hf : floorLookup fm start with
      | none => left; simp [getWorker, hm, hf]
      | some p =>
          obtain ⟨k, dl⟩ := p
          cases dl with
          | Pending => left; simp [getWorker, hm, hf]
          | Error e => left; simp [getWorker, hm, hf]
          | Done ob =>
              cases ob with
              | none => left; simp [getWorker, hm, hf]
              | some bytes =>
                  right
                  refine ⟨fm, k, bytes, rfl, hf, ?_⟩
                  simp only [getWorker, hm, hf]
                  cases he : ensureOk (decide (start - k + length ≤ bytes.length))
                      ("Download not scheduled (overflow right): (start=" ++
                        toString start ++ ",length=" ++ toString length ++ ")") with
                  | ok u => rfl
                  | error msg => rfl

theorem registryLookup_append_self {D : Type} (m : List (String × D))
    (id : String) (d : D) (h : registryLookup m id = none) :
    registryLookup (m ++ [(id, d)]) id = some d := by
  induction m with
  | nil => simp [registryLookup]
  | cons hd tl ih =>
      unfold registryLookup at h
      by_cases h1 : id = hd.1
      · rw [if_pos h1] at h
        simp at h
      · rw [if_neg h1] at h
        rw [List.cons_append]
        unfold registryLookup
        rw [if_neg h1]
        exact ih h

theorem runDispatcherFrom_inv (N : Nat) (events : List DispatcherEvent) :
    ∀ (s0 s : DispatcherState), s0.permits + s0.inflight = N →
    runDispatcherFrom s0 events = some s → s.permits + s.inflight = N := by
  induction events with
  | nil =>
      intro s0 s h0 h
      unfold runDispatcherFrom at h
      simp at h
      rw [← h]
      exact h0
  | cons e es ih =>
      intro s0 s h0 h
      unfold runDispatcherFrom at h
      cases e with
      | startFetch =>
          unfold dispatcherStep at h
          by_cases hp : 0 < s0.permits
          · rw [if_pos hp] at h
            exact ih ⟨s0.permits - 1, s0.inflight + 1⟩ s (by simp; omega) h
          · rw [if_neg hp] at h
            simp at h
      | finishFetch =>
          unfold dispatcherStep at h
          by_cases hp : 0 < s0.inflight
          · rw [if_pos hp] at h
            exact ih ⟨s0.permits + 1, s0.inflight - 1⟩ s (by simp; omega) h
          · rw [if_neg hp] at h
            simp at h

theorem entryAt_insert_btree_self (data : CacheData) (did fid : String)
    (fm : FileData) (start : Nat) (v : Download) :
    entryAt (mapInsert data (did, fid) (btreeInsert fm start v)) did fid start =
      some v := by
  unfold entryAt
  rw [mapLookup_insert_self]
  exact btreeLookup_insert_self fm start v

theorem entryAt_insert_btree_other (data : CacheData) (did fid did' fid' : String)
    (fm : FileData) (start start' : Nat) (v : Download)
    (hfm : mapLookup data (did', fid') = some fm ∨
      (mapLookup data (did', fid') = none ∧ fm = []))
    (hne : ¬ (did' = did ∧ fid' = fid ∧ start' = start)) :
    entryAt (mapInsert data (did', fid') (btreeInsert fm start' v)) did fid start =
      entryAt data did fid start := by
  by_cases hkey : ((did, fid) : CacheKey) = (did', fid')
  · have hstart : start' ≠ start := by
      intro heq
      apply hne
      have h1 : did' = did := by
        have := congrArg Prod.fst hkey
        simp at this
        exact this.symm
      have h2 : fid' = fid := by
        have := congrArg Prod.snd hkey
        simp at this
        exact this.symm
      exact ⟨h1, h2, heq⟩
    unfold entryAt
    rw [hkey, mapLookup_insert_self]
    rcases hfm with hfm | ⟨hfm, hfme⟩
    · rw [hfm]
      show btreeLookup (btreeInsert fm start' v) start = btreeLookup fm start
      exact btreeLookup_insert_ne fm start start' v (Ne.symm hstart)
    · rw [hfm, hfme]
      show btreeLookup (btreeInsert [] start' v) start = (none : Option Download)
      rw [btreeLookup_insert_ne [] start start' v (Ne.symm hstart)]
      rfl
  · unfold entryAt
    rw [mapLookup_insert_ne data (did, fid) (did', fid') _ hkey]

/-! ### Claim theorems -/

/-- C10: every `CachedReadData` satisfying the construction invariant
`position + remaining ≤ data.length` reads safely: `read` returns `Ok`
with count `min(bufLen, remaining)` (never an error, never a panic), the
count is at most the buffer length, the bytes copied into the caller's
buffer are exactly that many bytes of `data` starting at `position`, the
cursor advances by the count, and the invariant is preserved for the next
call. -/
theorem cachedReadData_read_safe (r : CachedReadData) (bufLen : Nat)
    (h : r.position + r.remaining ≤ r.data.length) :
    ∃ copied r1,
      r.read bufLen = .ok (min bufLen r.remaining, copied, r1) ∧
      min bufLen r.remaining ≤ bufLen ∧
      copied.length = min bufLen r.remaining ∧
      copied = (r.data.drop r.position).take (min bufLen r.remaining) ∧
      r1.data = r.data ∧
      r1.position = r.position + min bufLen r.remaining ∧
      r1.remaining = r.remaining - min bufLen r.remaining ∧
      r1.position + r1.remaining ≤ r1.data.length := by
  refine ⟨_, _, read_eq r bufLen h, Nat.min_le_left _ _, ?_, rfl, rfl, rfl, rfl, ?_⟩
  · rw [List.length_take, List.length_drop]
    omega
  · simp
    omega

/-- Witness for C10 at a concrete reader. -/
theorem cachedReadData_read_safe_witness :
    ∃ copied r1,
      CachedReadData.read ⟨[1, 2, 3], 1, 2⟩ 5 = .ok (min 5 2, copied, r1) ∧
      min 5 2 ≤ 5 ∧
      copied.length = min 5 2 ∧
      copied = (([1, 2, 3] : List Nat).drop 1).take (min 5 2) ∧
      r1.data = [1, 2, 3] ∧
      r1.position = 1 + min 5 2 ∧
      r1.remaining = 2 - min 5 2 ∧
      r1.position + r1.remaining ≤ r1.data.length :=
  cachedReadData_read_safe ⟨[1, 2, 3], 1, 2⟩ 5 (by decide)

/-- C2: the lookup performed by `get` is a floor lookup: whenever it finds
an entry `(k, d)`, that entry is in the file's chunk map, `k ≤ offset`,
and `k` is the greatest scheduled offset `≤ offset`; moreover, when that
floor chunk is `Done` with enough bytes, the worker serves the read out of
exactly that chunk (cursor `offset − k` into its bytes). -/
theorem get_floor_selection (fm : FileData) (start k length : Nat) (d : Download)
    (hs : KeysSorted fm) (hf : floorLookup fm start = some (k, d)) :
    k ≤ start ∧ (k, d) ∈ fm ∧ (∀ p ∈ fm, p.1 ≤ start → p.1 ≤ k) ∧
    (∀ (data : CacheData) (did fid : String) (bytes : List Nat),
      mapLookup data (did, fid) = some fm → d = .Done (some bytes) →
      start - k + length ≤ bytes.length →
      (getWorker data did fid start length).1 =
        .sent (.ok ⟨bytes, start - k, length⟩)) := by
  refine ⟨floorLookup_le hf, floorLookup_mem hf, floorLookup_greatest hs hf, ?_⟩
  intro data did fid bytes hm hd hlen
  subst hd
  simp [getWorker, hm, hf, ensureOk, hlen]

/-- Witness for C2: chunks at offsets `0` and `1000`; a get at offset
`1005` resolves to the chunk starting at `1000`, not `0`. -/
theorem get_floor_selection_witness :
    1000 ≤ 1005 ∧
    ((1000 : Nat), Download.Done (some (List.replicate 15 7))) ∈
      [((0 : Nat), Download.Done (some [9])),
       ((1000 : Nat), Download.Done (some (List.replicate 15 7)))] ∧
    (∀ p ∈ [((0 : Nat), Download.Done (some [9])),
            ((1000 : Nat), Download.Done (some (List.replicate 15 7)))],
      p.1 ≤ 1005 → p.1 ≤ 1000) ∧
    (∀ (data : CacheData) (did fid : String) (bytes : List Nat),
      mapLookup data (did, fid) =
        some [((0 : Nat), Download.Done (some [9])),
              ((1000 : Nat), Download.Done (some (List.replicate 15 7)))] →
      Download.Done (some (List.replicate 15 7)) = .Done (some bytes) →
      1005 - 1000 + 10 ≤ bytes.length →
      (getWorker data did fid 1005 10).1 =
        .sent (.ok ⟨bytes, 1005 - 1000, 10⟩)) :=
  get_floor_selection
    [((0 : Nat), Download.Done (some [9])),
     ((1000 : Nat), Download.Done (some (List.replicate 15 7)))]
    1005 1000 10 (Download.Done (some (List.replicate 15 7)))
    (by norm_num [KeysSorted]) rfl

/-- C7: `register_downloader` invokes the factory exactly when the source
identity is unregistered: starting from a registry without `id`,
registering `fA` invokes it and stores its downloader; a second
registration with `fB` does not invoke `fB` (creator-invoked flag `false`)
and leaves the registry, and in particular `id`'s downloader `fA ()`,
unchanged. The final conjunct characterises invocation in general: the
creator runs iff the lookup misses. -/
theorem register_downloader_first_wins {D : Type} (m : List (String × D))
    (id : String) (fA fB : Unit → D) (h : registryLookup m id = none) :
    (register_downloader m id fA).2 = true ∧
    registryLookup (register_downloader m id fA).1 id = some (fA ()) ∧
    (register_downloader (register_downloader m id fA).1 id fB).1 =
      (register_downloader m id fA).1 ∧
    (register_downloader (register_downloader m id fA).1 id fB).2 = false ∧
    (∀ (m1 : List (String × D)) (f : Unit → D),
      (register_downloader m1 id f).2 = (registryLookup m1 id).isNone) := by
  have h1 : register_downloader m id fA = (m ++ [(id, fA ())], true) := by
    unfold register_downloader
    rw [h]
  have h2 : registryLookup (m ++ [(id, fA ())]) id = some (fA ()) :=
    registryLookup_append_self m id (fA ()) h
  refine ⟨by rw [h1], by rw [h1]; exact h2, ?_, ?_, ?_⟩
  · rw [h1]
    unfold register_downloader
    rw [h2]
  · rw [h1]
    unfold register_downloader
    rw [h2]
  · intro m1 f
    cases hr : registryLookup m1 id with
    | none => simp [register_downloader, hr]
    | some d => simp [register_downloader, hr]

/-- Witness for C7: registering `"s3"` twice on an empty registry keeps
the downloader built by the first factory. -/
theorem register_downloader_first_wins_witness :
    (register_downloader ([] : List (String × Nat)) "s3" (fun _ => 1)).2 = true ∧
    registryLookup (register_downloader ([] : List (String × Nat)) "s3"
      (fun _ => 1)).1 "s3" = some 1 ∧
    (register_downloader (register_downloader ([] : List (String × Nat)) "s3"
      (fun _ => 1)).1 "s3" (fun _ => 2)).1 =
      (register_downloader ([] : List (String × Nat)) "s3" (fun _ => 1)).1 ∧
    (register_downloader (register_downloader ([] : List (String × Nat)) "s3"
      (fun _ => 1)).1 "s3" (fun _ => 2)).2 = false ∧
    (∀ (m1 : List (String × Nat)) (f : Unit → Nat),
      (register_downloader m1 "s3" f).2 = (registryLookup m1 "s3").isNone) :=
  register_downloader_first_wins [] "s3" (fun _ => 1) (fun _ => 2) rfl

/-- C9: with a permit pool of size `N`, every state reachable by any
interleaving of fetch starts and fetch completions has at most `N` fetches
in flight: `startFetch` is only enabled while a permit is available, and a
permit returns only on `finishFetch`. -/
theorem dispatcher_bounded_concurrency (N : Nat) (events : List DispatcherEvent)
    (s : DispatcherState) (h : runDispatcher N events = some s) :
    s.inflight ≤ N := by
  have hinv := runDispatcherFrom_inv N events ⟨N, 0⟩ s (by simp) h
  omega

/-- Witness for C9: a trace with pool size `2` that saturates the pool,
finishes one fetch and starts another, ending with `2 ≤ 2` in flight. -/
theorem dispatcher_bounded_concurrency_witness :
    (⟨0, 2⟩ : DispatcherState).inflight ≤ 2 :=
  dispatcher_bounded_concurrency 2
    [.startFetch, .startFetch, .finishFetch, .startFetch] ⟨0, 2⟩ rfl

/-- C1: round trip. After `schedule(S, F, O, L)` and a successful fetch
completion with bytes `B` (the downloader contract returns exactly `L`
bytes), the `get(S, F, O, L)` worker sends a reader over exactly `B`, and
reading that reader to exhaustion with any positive buffer size yields
exactly `B`; moreover each single `read` call copies
`min(bufLen, remaining)` bytes, advances the cursor by that count, and a
call on an exhausted reader returns count `0`. -/
theorem schedule_get_round_trip (S F : String) (O L : Nat) (B : List Nat)
    (hB : B.length = L) (bufLen : Nat) (hbuf : 0 < bufLen) :
    (getWorker (completeDownload (schedule emptyCache S F O L).data S F O (.ok B))
        S F O L).1 = .sent (.ok ⟨B, 0, L⟩) ∧
    readAll ⟨B, 0, L⟩ bufLen = .ok B ∧
    (∀ r : CachedReadData, r.position + r.remaining ≤ r.data.length →
      ∃ copied r1, r.read bufLen = .ok (min bufLen r.remaining, copied, r1) ∧
        copied.length = min bufLen r.remaining ∧
        r1.position = r.position + min bufLen r.remaining ∧
        r1.remaining = r.remaining - min bufLen r.remaining) ∧
    (∀ r : CachedReadData, r.position + r.remaining ≤ r.data.length →
      r.remaining = 0 → ∃ r1, r.read bufLen = .ok (0, [], r1)) := by
  refine ⟨?_, ?_, ?_, ?_⟩
  · simp [getWorker, schedule, scheduleData, completeDownload, emptyCache,
      mapLookup, mapInsert, btreeInsert, floorLookup, ensureOk, hB]
  · have hinv : (0 : Nat) + L ≤ B.length := by omega
    have h2 := readAll_eq ⟨B, 0, L⟩ bufLen hbuf hinv
    simp only at h2
    rw [h2, List.drop_zero, ← hB, List.take_length]
  · intro r h
    refine ⟨_, _, read_eq r bufLen h, ?_, rfl, rfl⟩
    rw [List.length_take, List.length_drop]
    omega
  · intro r h hrem
    refine ⟨⟨r.data, r.position + min bufLen r.remaining,
      r.remaining - min bufLen r.remaining⟩, ?_⟩
    rw [read_eq r bufLen h]
    simp [hrem]

/-- Witness for C1 at a concrete schedule/complete/get sequence. -/
theorem schedule_get_round_trip_witness :
    (getWorker (completeDownload
        (schedule emptyCache "s3" "f" 100 3).data "s3" "f" 100 (.ok [7, 8, 9]))
        "s3" "f" 100 3).1 = .sent (.ok ⟨[7, 8, 9], 0, 3⟩) ∧
    readAll ⟨[7, 8, 9], 0, 3⟩ 2 = .ok [7, 8, 9] ∧
    (∀ r : CachedReadData, r.position + r.remaining ≤ r.data.length →
      ∃ copied r1, r.read 2 = .ok (min 2 r.remaining, copied, r1) ∧
        copied.length = min 2 r.remaining ∧
        r1.position = r.position + min 2 r.remaining ∧
        r1.remaining = r.remaining - min 2 r.remaining) ∧
    (∀ r : CachedReadData, r.position + r.remaining ≤ r.data.length →
      r.remaining = 0 → ∃ r1, r.read 2 = .ok (0, [], r1)) :=
  schedule_get_round_trip "s3" "f" 100 3 [7, 8, 9] rfl 2 (by decide)

/-- C3 (code defect): when no chunk starting at or before `offset` is
scheduled for the (source, file) pair — the file is unknown or the floor
lookup misses — the worker thread constructs the NotScheduled error but
`?`-returns it out of the spawned closure before ever reaching
`tx.send`, so the oneshot channel is dropped empty and nothing is
delivered to the caller: the reader's first `read` call loops forever on
`try_recv`. -/
theorem get_not_scheduled_never_delivered (data : CacheData) (did fid : String)
    (start length bufLen : Nat)
    (h : mapLookup data (did, fid) = none ∨
      ∃ fm, mapLookup data (did, fid) = some fm ∧ floorLookup fm start = none) :
    ∃ msg, (getWorker data did fid start length).1 = .dropped msg ∧
      GetOutcome.channelContent (getWorker data did fid start length).1 = none ∧
      CachedRead.firstRead
        (GetOutcome.channelContent (getWorker data did fid start length).1)
        bufLen = .hangs := by
  rcases h with h | ⟨fm, hm, hf⟩
  · have h1 : (getWorker data did fid start length).1 =
        .dropped ("No download scheduled for file: (donwloader=" ++ did ++
          ",file_id=" ++ fid ++ ")") := by
      simp [getWorker, h]
    exact ⟨_, h1, by rw [h1]; rfl, by rw [h1]; rfl⟩
  · have h1 : (getWorker data did fid start length).1 =
        .dropped ("Download not scheduled: (start=" ++ toString start ++
          ",length=" ++ toString length ++ ")") := by
      simp [getWorker, hm, hf]
    exact ⟨_, h1, by rw [h1]; rfl, by rw [h1]; rfl⟩

/-- Witness for C3: `get(S, F, 500, 10)` with nothing scheduled at all
hangs instead of delivering NotScheduled. -/
theorem get_not_scheduled_never_delivered_witness :
    ∃ msg, (getWorker [] "s3" "f" 500 10).1 = .dropped msg ∧
      GetOutcome.channelContent (getWorker [] "s3" "f" 500 10).1 = none ∧
      CachedRead.firstRead
        (GetOutcome.channelContent (getWorker [] "s3" "f" 500 10).1) 8 = .hangs :=
  get_not_scheduled_never_delivered [] "s3" "f" 500 10 8 (Or.inl rfl)

/-- C4 (code defect): when the floor chunk is in the `Error` state, the
worker hits the `unreachable!()` arm and panics; the failure reason is
never delivered through the result channel, and the reader's first `read`
call hangs forever on the closed channel. -/
theorem get_error_chunk_panics (data : CacheData) (did fid : String)
    (start length bufLen : Nat) (fm : FileData) (k : Nat) (reason : String)
    (hm : mapLookup data (did, fid) = some fm)
    (hf : floorLookup fm start = some (k, .Error reason)) :
    (getWorker data did fid start length).1 = .panicked ∧
    GetOutcome.channelContent (getWorker data did fid start length).1 = none ∧
    CachedRead.firstRead
      (GetOutcome.channelContent (getWorker data did fid start length).1)
      bufLen = .hangs := by
  have h1 : (getWorker data did fid start length).1 = .panicked := by
    simp [getWorker, hm, hf]
  exact ⟨h1, by rw [h1]; rfl, by rw [h1]; rfl⟩

/-- Witness for C4: a scheduled chunk whose fetch failed with reason
`"boom"`; the subsequent get panics and delivers nothing. -/
theorem get_error_chunk_panics_witness :
    (getWorker (completeDownload
        (schedule emptyCache "s3" "f" 0 3).data "s3" "f" 0 (.error "boom"))
        "s3" "f" 0 3).1 = .panicked ∧
    GetOutcome.channelContent (getWorker (completeDownload
        (schedule emptyCache "s3" "f" 0 3).data "s3" "f" 0 (.error "boom"))
        "s3" "f" 0 3).1 = none ∧
    CachedRead.firstRead (GetOutcome.channelContent (getWorker (completeDownload
        (schedule emptyCache "s3" "f" 0 3).data "s3" "f" 0 (.error "boom"))
        "s3" "f" 0 3).1) 8 = .hangs :=
  get_error_chunk_panics _ "s3" "f" 0 3 8 [(0, .Error "boom")] 0 "boom" rfl rfl

/-- C5 (code defect): when the floor chunk is `Done` but its byte length is
less than `(offset − chunkStart) + length`, the worker detects the
overflow, but `ensure!`'s early return drops the Overflow error before
`tx.send`; nothing is delivered to the consumer, whose first `read` call
hangs forever. (The bytes are still taken out of the entry first.) -/
theorem get_overflow_never_delivered (data : CacheData) (did fid : String)
    (start length bufLen : Nat) (fm : FileData) (k : Nat) (bytes : List Nat)
    (hm : mapLookup data (did, fid) = some fm)
    (hf : floorLookup fm start = some (k, .Done (some bytes)))
    (hover : bytes.length < start - k + length) :
    (getWorker data did fid start length).1 =
      .dropped ("Download not scheduled (overflow right): (start=" ++
        toString start ++ ",length=" ++ toString length ++ ")") ∧
    GetOutcome.channelContent (getWorker data did fid start length).1 = none ∧
    CachedRead.firstRead
      (GetOutcome.channelContent (getWorker data did fid start length).1)
      bufLen = .hangs := by
  have hd : decide (start - k + length ≤ bytes.length) = false :=
    decide_eq_false (by omega)
  have h1 : (getWorker data did fid start length).1 =
      .dropped ("Download not scheduled (overflow right): (start=" ++
        toString start ++ ",length=" ++ toString length ++ ")") := by
    simp [getWorker, hm, hf, ensureOk, hd]
  exact ⟨h1, by rw [h1]; rfl, by rw [h1]; rfl⟩

/-- Witness for C5: schedule `(O=100, L=50)`, downloader returns 50 bytes,
then `get(S, F, 100, 60)`: the overflow error is produced but never
delivered. -/
theorem get_overflow_never_delivered_witness :
    (getWorker (completeDownload (schedule emptyCache "s3" "f" 100 50).data
        "s3" "f" 100 (.ok (List.replicate 50 5))) "s3" "f" 100 60).1 =
      .dropped ("Download not scheduled (overflow right): (start=" ++
        toString 100 ++ ",length=" ++ toString 60 ++ ")") ∧
    GetOutcome.channelContent (getWorker (completeDownload
        (schedule emptyCache "s3" "f" 100 50).data
        "s3" "f" 100 (.ok (List.replicate 50 5))) "s3" "f" 100 60).1 = none ∧
    CachedRead.firstRead (GetOutcome.channelContent (getWorker (completeDownload
        (schedule emptyCache "s3" "f" 100 50).data
        "s3" "f" 100 (.ok (List.replicate 50 5))) "s3" "f" 100 60).1) 8 = .hangs :=
  get_overflow_never_delivered _ "s3" "f" 100 60 8
    [(100, .Done (some (List.replicate 50 5)))] 100 (List.replicate 50 5)
    rfl rfl (by simp)

/-- C6 counterexample: two sequential `get` calls for the same completed
chunk do NOT both return the chunk bytes: the first succeeds, but it takes
(`Option::take`) the bytes out of the `Done` entry, so the second hits
`unwrap()` on `None` and panics. -/
theorem get_same_chunk_twice_counterexample :
    (getWorker [(("s3", "f"), [(0, Download.Done (some [7, 8, 9]))])]
        "s3" "f" 0 3).1 = .sent (.ok ⟨[7, 8, 9], 0, 3⟩) ∧
    (getWorker
        (getWorker [(("s3", "f"), [(0, Download.Done (some [7, 8, 9]))])]
          "s3" "f" 0 3).2
        "s3" "f" 0 3).1 = .panicked := by
  constructor <;> rfl

/-- C6 (amended): only the FIRST reader of a `Done` chunk receives its
bytes. Materialising the first reader's view moves the buffer out of the
entry (which becomes `Done(None)`), so a second `get` for the same
completed chunk panics on `unwrap` instead of returning the same bytes. -/
theorem get_first_reader_takes_bytes (data : CacheData) (did fid : String)
    (start length : Nat) (fm : FileData) (k : Nat) (bytes : List Nat)
    (hs : KeysSorted fm)
    (hm : mapLookup data (did, fid) = some fm)
    (hf : floorLookup fm start = some (k, .Done (some bytes)))
    (hlen : start - k + length ≤ bytes.length) :
    (getWorker data did fid start length).1 =
      .sent (.ok ⟨bytes, start - k, length⟩) ∧
    entryAt (getWorker data did fid start length).2 did fid k =
      some (.Done none) ∧
    (getWorker (getWorker data did fid start length).2 did fid start length).1 =
      .panicked := by
  have hdec : decide (start - k + length ≤ bytes.length) = true :=
    decide_eq_true hlen
  have hfst : (getWorker data did fid start length).1 =
      .sent (.ok ⟨bytes, start - k, length⟩) := by
    simp [getWorker, hm, hf, ensureOk, hdec]
  have hsnd : (getWorker data did fid start length).2 =
      mapInsert data (did, fid) (btreeInsert fm k (.Done none)) := by
    simp [getWorker, hm, hf, ensureOk, hdec]
  refine ⟨hfst, ?_, ?_⟩
  · rw [hsnd]
    exact entryAt_insert_btree_self data did fid fm k (.Done none)
  · rw [hsnd]
    have hm2 : mapLookup (mapInsert data (did, fid)
        (btreeInsert fm k (.Done none))) (did, fid) =
        some (btreeInsert fm k (.Done none)) :=
      mapLookup_insert_self data (did, fid) _
    have hf2 : floorLookup (btreeInsert fm k (.Done none)) start =
        some (k, .Done none) :=
      floorLookup_insert_found hs hf _
    simp [getWorker, hm2, hf2]

/-- Witness for the amended C6 at a concrete completed chunk. -/
theorem get_first_reader_takes_bytes_witness :
    (getWorker [(("s3", "f"), [(0, Download.Done (some [7, 8, 9]))])]
        "s3" "f" 0 3).1 = .sent (.ok ⟨[7, 8, 9], 0 - 0, 3⟩) ∧
    entryAt (getWorker [(("s3", "f"), [(0, Download.Done (some [7, 8, 9]))])]
        "s3" "f" 0 3).2 "s3" "f" 0 = some (.Done none) ∧
    (getWorker
        (getWorker [(("s3", "f"), [(0, Download.Done (some [7, 8, 9]))])]
          "s3" "f" 0 3).2
        "s3" "f" 0 3).1 = .panicked :=
  get_first_reader_takes_bytes
    [(("s3", "f"), [(0, Download.Done (some [7, 8, 9]))])] "s3" "f" 0 3
    [(0, Download.Done (some [7, 8, 9]))] 0 [7, 8, 9]
    trivial rfl rfl (by decide)

/-- C8 counterexample: an entry that has reached `Done` IS observed as
`Pending` again at the same offset when that offset is re-scheduled:
`schedule` unconditionally inserts `Pending` (`range_cache.rs` line 193). -/
theorem terminal_reverts_on_reschedule_counterexample :
    entryAt (applyOps [] [.scheduleOp "s3" "f" 0 2,
        .completeOp "s3" "f" 0 (.ok [1, 2])]) "s3" "f" 0 =
      some (.Done (some [1, 2])) ∧
    entryAt (applyOps [] [.scheduleOp "s3" "f" 0 2,
        .completeOp "s3" "f" 0 (.ok [1, 2]),
        .scheduleOp "s3" "f" 0 2]) "s3" "f" 0 = some .Pending := by
  constructor <;> rfl

theorem applyOp_terminal_stable (data : CacheData) (did fid : String)
    (start : Nat) (op : CacheOp)
    (hop : ∀ l, op ≠ CacheOp.scheduleOp did fid start l)
    (h : ∃ d, entryAt data did fid start = some d ∧ d.isTerminal = true) :
    ∃ d, entryAt (applyOp data op) did fid start = some d ∧
      d.isTerminal = true := by
  obtain ⟨d, hd, hterm⟩ := h
  cases op with
  | scheduleOp did' fid' start' l' =>
      have hne : ¬ (did' = did ∧ fid' = fid ∧ start' = start) := by
        rintro ⟨h1, h2, h3⟩
        exact hop l' (by rw [h1, h2, h3])
      refine ⟨d, ?_, hterm⟩
      have heq : entryAt (scheduleData data did' fid' start') did fid start =
          entryAt data did fid start := by
        unfold scheduleData
        apply entryAt_insert_btree_other data did fid did' fid' _ start start'
          _ ?_ hne
        cases hfm : mapLookup data (did', fid') with
        | some fm0 => left; rfl
        | none => right; exact ⟨rfl, rfl⟩
      rw [show applyOp data (CacheOp.scheduleOp did' fid' start' l') =
        scheduleData data did' fid' start' from rfl, heq, hd]
  | completeOp did' fid' start' res =>
      by_cases hsame : did' = did ∧ fid' = fid ∧ start' = start
      · obtain ⟨h1, h2, h3⟩ := hsame
        subst h1
        subst h2
        subst h3
        cases res with
        | ok bytes =>
            refine ⟨.Done (some bytes), ?_, rfl⟩
            show entryAt (completeDownload data did' fid' start' (.ok bytes))
              did' fid' start' = _
            unfold completeDownload
            exact entryAt_insert_btree_self data did' fid' _ start' _
        | error reason =>
            refine ⟨.Error reason, ?_, rfl⟩
            show entryAt (completeDownload data did' fid' start' (.error reason))
              did' fid' start' = _
            unfold completeDownload
            exact entryAt_insert_btree_self data did' fid' _ start' _
      · refine ⟨d, ?_, hterm⟩
        have heq : entryAt (completeDownload data did' fid' start' res)
            did fid start = entryAt data did fid start := by
          unfold completeDownload
          apply entryAt_insert_btree_other data did fid did' fid' _ start start'
            _ ?_ hsame
          cases hfm : mapLookup data (did', fid') with
          | some fm0 => left; rfl
          | none => right; exact ⟨rfl, rfl⟩
        rw [show applyOp data (CacheOp.completeOp did' fid' start' res) =
          completeDownload data did' fid' start' res from rfl, heq, hd]
  | getOp did' fid' start' l' =>
      rcases getWorker_snd data did' fid' start' l' with hsnd |
        ⟨fm, k, bytes, hmx, hfx, hsnd⟩
      · refine ⟨d, ?_, hterm⟩
        rw [show applyOp data (CacheOp.getOp did' fid' start' l') =
          (getWorker data did' fid' start' l').2 from rfl, hsnd, hd]
      · by_cases hsame : did' = did ∧ fid' = fid ∧ k = start
        · obtain ⟨h1, h2, h3⟩ := hsame
          subst h1
          subst h2
          subst h3
          refine ⟨.Done none, ?_, rfl⟩
          rw [show applyOp data (CacheOp.getOp did' fid' start' l') =
            (getWorker data did' fid' start' l').2 from rfl, hsnd]
          exact entryAt_insert_btree_self data did' fid' fm k _
        · refine ⟨d, ?_, hterm⟩
          rw [show applyOp data (CacheOp.getOp did' fid' start' l') =
            (getWorker data did' fid' start' l').2 from rfl, hsnd]
          rw [entryAt_insert_btree_other data did fid did' fid' fm start k
            (.Done none) (Or.inl hmx) hsame, hd]

theorem applyOps_terminal_stable : ∀ (ops : List CacheOp) (data : CacheData)
    (did fid : String) (start : Nat),
    (∀ op ∈ ops, ∀ l, op ≠ CacheOp.scheduleOp did fid start l) →
    (∃ d, entryAt data did fid start = some d ∧ d.isTerminal = true) →
    ∃ d, entryAt (applyOps data ops) did fid start = some d ∧
      d.isTerminal = true := by
  intro ops
  induction ops with
  | nil =>
      intro data did fid start _ h
      exact h
  | cons op rest ih =>
      intro data did fid start hops h
      have hstep := applyOp_terminal_stable data did fid start op
        (fun l => hops op (List.mem_cons_self op rest) l) h
      exact ih (applyOp data op) did fid start
        (fun o ho l => hops o (List.mem_cons_of_mem op ho) l) hstep

/-- C8 (amended): once a chunk-map entry is terminal (`Done` or `Error`),
no sequence of dispatcher completions and `get` runs — nor schedules of
OTHER offsets or files — ever shows it as `Pending` again; terminality can
only be lost by re-scheduling that very (source, file, offset), which the
source performs with an unconditional `Pending` insert (§3's "scheduling
the same offset twice replaces the prior entry"). -/
theorem terminal_never_pending_without_reschedule (data : CacheData)
    (did fid : String) (start : Nat) (ops : List CacheOp)
    (hops : ∀ op ∈ ops, ∀ l, op ≠ CacheOp.scheduleOp did fid start l)
    (h : ∃ d, entryAt data did fid start = some d ∧ d.isTerminal = true) :
    (∃ d, entryAt (applyOps data ops) did fid start = some d ∧
      d.isTerminal = true) ∧
    entryAt (applyOps data ops) did fid start ≠ some Download.Pending := by
  have main := applyOps_terminal_stable ops data did fid start hops h
  refine ⟨main, ?_⟩
  obtain ⟨d, hd, hterm⟩ := main
  rw [hd]
  intro hcon
  have : d = Download.Pending := by
    injection hcon
  rw [this] at hterm
  simp [Download.isTerminal] at hterm

/-- Witness for the amended C8: a completed entry at offset `0` stays
terminal across a `get` (which empties it), a failing re-completion, and a
schedule at a different offset. -/
theorem terminal_never_pending_without_reschedule_witness :
    (∃ d, entryAt (applyOps [(("s3", "f"), [(0, Download.Done (some [1, 2]))])]
        [.getOp "s3" "f" 0 2, .completeOp "s3" "f" 0 (.error "x"),
         .scheduleOp "s3" "f" 5 1]) "s3" "f" 0 = some d ∧
      d.isTerminal = true) ∧
    entryAt (applyOps [(("s3", "f"), [(0, Download.Done (some [1, 2]))])]
        [.getOp "s3" "f" 0 2, .completeOp "s3" "f" 0 (.error "x"),
         .scheduleOp "s3" "f" 5 1]) "s3" "f" 0 ≠ some Download.Pending :=
  terminal_never_pending_without_reschedule
    [(("s3", "f"), [(0, Download.Done (some [1, 2]))])] "s3" "f" 0
    [.getOp "s3" "f" 0 2, .completeOp "s3" "f" 0 (.error "x"),
     .scheduleOp "s3" "f" 5 1]
    (by
      intro op hop l
      simp only [List.mem_cons, List.not_mem_nil, or_false] at hop
      rcases hop with rfl | rfl | rfl
      · intro hcon
        cases hcon
      · intro hcon
        cases hcon
      · intro hcon
        injection hcon with h1 h2 h3 h4
        omega)
    ⟨Download.Done (some [1, 2]), rfl, rfl⟩

end RangeCache
